import Mathlib

/-!
# Verification of the Stockfish engine coordination layer

A shallow embedding, in Lean 4, of the engine-coordination core found in
`src/engine/StockfishEngine.js` of the `chess-helper` repository, together
with proofs and refutations of the specification's claims about it.

JavaScript values are embedded as follows:
* a JS number that may be `NaN` is `Option Int` (`none` = `NaN`);
* `parseInt` is `jsParseInt : String → Option Int`;
* `line.split(" ")` is `jsSplitSpace` (keeps empty fragments, like JS);
* `line.startsWith(p)` / `line.includes(p)` are `strStartsWith` /
  `strIncludes`, defined by recursion on the character list;
* `===` on possibly-`NaN` numbers is `jsEqOptInt` (`NaN === x` is `false`);
* a thrown exception is an `Option String` error component (or `Except`);
* the engine binding is a log `sent : List String` of delivered commands.
-/

set_option maxHeartbeats 1000000

deriving instance DecidableEq for Except

namespace ChessHelper

/-- Split a character list at every occurrence of the separator, keeping
empty fragments — the semantics of JS `split` with a one-character
separator. -/
def splitChunks (sep : Char) : List Char → List (List Char)
  | [] => [[]]
  | c :: cs =>
    let r := splitChunks sep cs
    if c = sep then [] :: r
    else
      match r with
      | [] => [[c]]
      | h :: t => (c :: h) :: t

/-- `line.split(" ")`. -/
def jsSplitSpace (s : String) : List String :=
  (splitChunks ' ' s.data).map (fun cs => String.mk cs)

/-- `s.startsWith(pre)`. -/
def strStartsWith (s pre : String) : Bool :=
  pre.data.isPrefixOf s.data

/-- Substring containment on character lists. -/
def listContainsSub (pat : List Char) : List Char → Bool
  | [] => pat.isEmpty
  | c :: cs => pat.isPrefixOf (c :: cs) || listContainsSub pat cs

/-- `s.includes(pat)`. -/
def strIncludes (s pat : String) : Bool :=
  listContainsSub pat.data s.data

/-- Truthiness of a JS string-or-null value: `null`/`undefined` and the
empty string are falsy, every other string is truthy. -/
def jsTruthyStr : Option String → Bool
  | none => false
  | some s => s ≠ ""

/-- JS strict equality `===` on numbers that may be `NaN` (`none`):
`NaN === x` is `false` for every `x`, including `NaN` itself. -/
def jsEqOptInt : Option Int → Option Int → Bool
  | some a, some b => a == b
  | _, _ => false

/-- `parseInt(s)`: optional sign, then the maximal run of leading decimal
digits; no digits at all gives `NaN` (`none`). -/
def jsParseInt (s : String) : Option Int :=
  let core : List Char → Option Nat := fun cs =>
    let ds := cs.takeWhile Char.isDigit
    if ds.isEmpty then none
    else some (ds.foldl (fun a c => a * 10 + (c.toNat - 48)) 0)
  match s.data with
  | '-' :: rest => (core rest).map (fun n => -(n : Int))
  | '+' :: rest => (core rest).map (fun n => (n : Int))
  | cs => (core cs).map (fun n => (n : Int))

/-- An `EvaluationScore`: the `{type, value}` object built by
`parseInfoLine` for `score cp <v>` / `score mate <v>`. -/
structure Score where
  type : String
  value : Option Int
  deriving Repr, DecidableEq

/-- The record object assembled by `parseInfoLine`: initialised to
`{multipv: 1, score: null, move: null, depth: 0}` and filled in while
scanning the tokens of the line. -/
structure InfoRec where
  multipv : Option Int
  score : Option Score
  move : Option String
  depth : Option Int
  deriving Repr, DecidableEq

/-- One iteration of the token scan in `parseInfoLine`: the `else if`
chain on `parts[i]` for `multipv`, `depth`, `score`, `pv`. -/
def fieldStep (parts : List String) (r : InfoRec) (i : Nat) : InfoRec :=
  let p := parts.getD i ""
  if p = "multipv" then
    if i + 1 < parts.length then { r with multipv := jsParseInt (parts.getD (i+1) "") } else r
  else if p = "depth" then
    if i + 1 < parts.length then { r with depth := jsParseInt (parts.getD (i+1) "") } else r
  else if p = "score" then
    if i + 2 < parts.length then
      if parts.getD (i+1) "" = "cp" then
        { r with score := some ⟨"cp", jsParseInt (parts.getD (i+2) "")⟩ }
      else if parts.getD (i+1) "" = "mate" then
        { r with score := some ⟨"mate", jsParseInt (parts.getD (i+2) "")⟩ }
      else r
    else r
  else if p = "pv" then
    if i + 1 < parts.length then { r with move := some (parts.getD (i+1) "") } else r
  else r

/-- The token scan of `parseInfoLine` before its final completeness guard:
split the line on single spaces and fold `fieldStep` over all indices. -/
def rawParse (line : String) : InfoRec :=
  let parts := jsSplitSpace line
  (List.range parts.length).foldl (fieldStep parts) ⟨some 1, none, none, some 0⟩

/-- `parseInfoLine(line)`: scan the tokens, then
`return (result.move && result.score) ? result : null`. -/
def parseInfoLine (line : String) : Option InfoRec :=
  let r := rawParse line
  if jsTruthyStr r.move && r.score.isSome then some r else none

/-! ## Engine session state (`StockfishEngine` fields, `EngineConfig.js`) -/

namespace EngineConfig

/-- `ENGINE_CONFIG.DEFAULT_DEPTH`. -/
def DEFAULT_DEPTH : Int := 15

/-- `ENGINE_CONFIG.INIT_TIMEOUT`. -/
def INIT_TIMEOUT : Int := 10000

/-- `ENGINE_CONFIG.MOVE_TIMEOUT`. -/
def MOVE_TIMEOUT : Int := 30000

/-- `ENGINE_CONFIG.UCI_OPTIONS.Threads`. -/
def THREADS : Int := 1

/-- `ENGINE_CONFIG.UCI_OPTIONS.Hash`. -/
def HASH : Int := 128

end EngineConfig

/-- The `options` argument of the constructor. A field is `some v` when
the caller passed a finite number `v` and `none` when the value is
absent or fails `Number.isFinite` (undefined, NaN, ±Infinity, non-number). -/
structure CtorOptions where
  depth : Option Int := none
  initTimeout : Option Int := none
  moveTimeout : Option Int := none
  threads : Option Int := none
  hashSize : Option Int := none

/-- `this.config` as built by the constructor: every field holds a finite
number (a non-finite option has been replaced by its default). -/
structure EngineConfigSt where
  depth : Int
  initTimeout : Int
  moveTimeout : Int
  threads : Int
  hashSize : Int
  deriving Repr, DecidableEq

/-- The mutable fields of a `StockfishEngine` instance, plus `sent`: the
log of command strings actually delivered to the engine binding (the
calls that reach `this.engine.sendCommand`). -/
structure EngineSt where
  engineInit : Bool
  engineReady : Bool
  engineCrashed : Bool
  handlers : List String
  uciOk : Bool
  optionsApplied : Bool
  config : EngineConfigSt
  sent : List String
  deriving Repr, DecidableEq

/-- `constructor(options)`: store each finite option, fall back to the
`ENGINE_CONFIG` default otherwise. No validation beyond `Number.isFinite`
is performed and nothing is sent. -/
def newEngine (options : CtorOptions) : EngineSt :=
  { engineInit := false
    engineReady := false
    engineCrashed := false
    handlers := []
    uciOk := false
    optionsApplied := false
    config :=
      { depth := options.depth.getD EngineConfig.DEFAULT_DEPTH
        initTimeout := options.initTimeout.getD EngineConfig.INIT_TIMEOUT
        moveTimeout := options.moveTimeout.getD EngineConfig.MOVE_TIMEOUT
        threads := options.threads.getD EngineConfig.THREADS
        hashSize := options.hashSize.getD EngineConfig.HASH }
    sent := [] }

/-- `sendCommand(cmd)`: throw when crashed or uninitialized, otherwise
deliver `cmd` to the binding. The second component is `some msg` exactly
when the JS code throws; the state is unchanged in that case. -/
def sendCommand (st : EngineSt) (cmd : String) : EngineSt × Option String :=
  if st.engineCrashed then (st, some "Chess engine is not running")
  else if !st.engineInit then (st, some "Engine not initialized")
  else ({ st with sent := st.sent ++ [cmd] }, none)

/-- `_applyUciOptions()`: a once-only guard on `_optionsApplied`, then the
two `setoption` commands. The `Number.isFinite` re-checks inside it are
vacuously true because the constructor only stores finite numbers in
`config`, so both commands are attempted on the first application. -/
def applyUciOptions (st : EngineSt) : EngineSt × Option String :=
  if st.optionsApplied then (st, none)
  else
    let st1 := { st with optionsApplied := true }
    match sendCommand st1 ("setoption name Threads value " ++ toString st1.config.threads) with
    | (st2, some e) => (st2, some e)
    | (st2, none) =>
        sendCommand st2 ("setoption name Hash value " ++ toString st2.config.hashSize)

/-- The synchronous part of `waitForReady()`: reject at once when the
session has crashed; otherwise register a fresh init handler under `hid`
and send `uci`. If that send throws, the promise settles by rejection and
the cleanup removes the handler again. The second component is `some err`
when the returned promise is already rejected at this point. -/
def waitForReadyStart (st : EngineSt) (hid : String) : EngineSt × Option String :=
  if st.engineCrashed then (st, some "Engine crashed during initialization")
  else
    let st1 := { st with handlers := st.handlers ++ [hid] }
    match sendCommand st1 "uci" with
    | (st2, none) => (st2, none)
    | (st2, some e) => ({ st2 with handlers := st2.handlers.erase hid }, some e)

/-- The init handler registered by `waitForReady`, processing one engine
output line. Outcome: `none` = still pending, `some none` = resolved,
`some (some e)` = rejected; settling runs the cleanup, which removes the
handler. -/
def initHandlerLine (st : EngineSt) (hid : String) (line : String) :
    EngineSt × Option (Option String) :=
  if st.engineCrashed then
    ({ st with handlers := st.handlers.erase hid },
      some (some "Engine crashed during initialization"))
  else if line = "uciok" then
    match applyUciOptions st with
    | (st1, some e) => ({ st1 with handlers := st1.handlers.erase hid }, some (some e))
    | (st1, none) =>
        match sendCommand st1 "isready" with
        | (st2, some e) => ({ st2 with handlers := st2.handlers.erase hid }, some (some e))
        | (st2, none) => (st2, none)
  else if line = "readyok" then
    ({ st with engineReady := true, handlers := st.handlers.erase hid }, some none)
  else (st, none)

/-- `this.engine.listener`: before notifying the handlers, a `uciok` line
sets `_uciOk`. -/
def listenerMark (st : EngineSt) (line : String) : EngineSt :=
  if line = "uciok" then { st with uciOk := true } else st

/-- The `catch` branch of `initialize()`: mark the session crashed. -/
def initializeFail (st : EngineSt) : EngineSt :=
  { st with engineCrashed := true }

/-- `terminate()`: shuts the binding down; it sends no command and
changes no session field (in particular it never touches `engineCrashed`). -/
def terminate (st : EngineSt) : EngineSt :=
  st

/-- The guard at the head of `run` inside `_enqueue`, executed before the
queued `taskFn` is invoked: `some msg` when `run` throws instead of
running the task. -/
def runGuard (st : EngineSt) : Option String :=
  if st.engineCrashed then some "Chess engine is not running"
  else if !st.engineInit then some "Engine not initialized"
  else if !st.engineReady then some "Engine not ready"
  else none

/-! ## The request serializer `_enqueue` (promise-chain denotation) -/

/-- Events observable on the serialized queue: the start and the
settlement (with a success bit) of the i-th enqueued work item. -/
inductive QEv where
  | start (i : Nat)
  | settle (i : Nat) (ok : Bool)
  deriving Repr, DecidableEq

/-- Whether an `Except` settlement is a resolution. -/
def exceptOk {α : Type} : Except String α → Bool
  | .ok _ => true
  | .error _ => false

/-- Denotation of a promise in the single-threaded event loop: the queue
events emitted while it ran, and its settlement. -/
structure Prom (α : Type) where
  trace : List QEv
  out : Except String α

/-- `p.then(onOk, onErr)`: the continuation runs once `p` has settled,
chosen by how `p` settled. -/
def Prom.pthen {α β : Type} (p : Prom α) (onOk : α → Prom β)
    (onErr : String → Prom β) : Prom β :=
  match p.out with
  | .ok a => let q := onOk a; ⟨p.trace ++ q.trace, q.out⟩
  | .error e => let q := onErr e; ⟨p.trace ++ q.trace, q.out⟩

/-- `p.catch(() => {})`: swallow a rejection, resolving with undefined. -/
def Prom.swallow {α : Type} (p : Prom α) : Prom Unit :=
  ⟨p.trace, .ok ()⟩

/-- `run` for the i-th enqueued task: re-check the engine guards, then
run the task body; the start and settlement events frame its execution. -/
def runItem (st : EngineSt) (i : Nat) (task : Except String Nat) : Prom Nat :=
  let out : Except String Nat :=
    match runGuard st with
    | some e => .error e
    | none => task
  ⟨[QEv.start i, QEv.settle i (exceptOk out)], out⟩

/-- `_enqueue` applied to a batch of tasks in call order: each call
chains `run` onto the current queue promise via `.then(run, run)`,
returns that promise `p` to the caller, and stores `p.catch(() => {})`
as the new queue. Returns the final queue promise and the per-caller
promises in order. -/
def enqueueAll (st : EngineSt) :
    List (Except String Nat) → Nat → Prom Unit → Prom Unit × List (Prom Nat)
  | [], _, q => (q, [])
  | t :: ts, i, q =>
      let p := q.pthen (fun _ => runItem st i t) (fun _ => runItem st i t)
      let rest := enqueueAll st ts (i+1) p.swallow
      (rest.1, p :: rest.2)

/-- The strictly serialized FIFO trace: item `i0` starts, settles, then
item `i0+1` starts, and so on — every item appears, regardless of how the
previous one settled. -/
def serialTrace (i0 : Nat) : List (Except String Nat) → List QEv
  | [] => []
  | t :: ts => QEv.start i0 :: QEv.settle i0 (exceptOk t) :: serialTrace (i0+1) ts

/-! ## Per-request state machines (`getBestMove`, `getAnalysis`) -/

/-- The object `getAnalysis` resolves with. -/
structure AnalysisResult where
  bestMove : Option String
  evaluation : Option Score
  moves : List InfoRec
  depth : Int
  deriving Repr, DecidableEq

/-- The upsert in the `getAnalysis` line handler:
`moves.findIndex(m => m.multipv === analysis.multipv)`, then replace the
match in place or push at the end. -/
def upsertMove (moves : List InfoRec) (a : InfoRec) : List InfoRec :=
  match moves.findIdx? (fun m => jsEqOptInt m.multipv a.multipv) with
  | some i => moves.set i a
  | none => moves ++ [a]

/-- `upsertMove`, phrased as structural recursion (replace the first
record whose rank strictly equals the new one, else append). -/
def upsertMoveRec : List InfoRec → InfoRec → List InfoRec
  | [], a => [a]
  | m :: ms, a =>
      if jsEqOptInt m.multipv a.multipv then a :: ms else m :: upsertMoveRec ms a

/-- The comparator `(a, b) => a.multipv - b.multipv` as a Boolean
"no swap needed" relation: `≤` on two well-formed ranks; a `NaN` rank
makes the comparator return `NaN`, which the sort treats as a tie. -/
def rankLe (x y : InfoRec) : Bool :=
  match x.multipv, y.multipv with
  | some a, some b => a ≤ b
  | _, _ => true

/-- Stable insertion of one record into a run already sorted by `rankLe`. -/
def insertByRank (a : InfoRec) : List InfoRec → List InfoRec
  | [] => [a]
  | b :: bs => if rankLe a b then a :: b :: bs else b :: insertByRank a bs

/-- `moves.sort((a, b) => a.multipv - b.multipv)`: JS `sort` is stable
(ES2019), and a stable sort is determined uniquely by the comparator's
preorder, so it is embedded as a stable insertion sort by `rankLe`. -/
def sortByRank : List InfoRec → List InfoRec
  | [] => []
  | a :: as => insertByRank a (sortByRank as)

/-- Timed events a pending request can receive: its deadline firing, the
post-`stop` grace timer firing, and one engine output line. -/
inductive ReqEv where
  | deadline
  | grace
  | line (s : String)
  deriving Repr, DecidableEq

/-- The per-request state of one `getAnalysis` call together with the
engine session it mutates. `handlerRegistered` is
`messageHandlers.has(requestId)` for this request's id. -/
structure AnalysisSt where
  eng : EngineSt
  numMoves : Int
  reqDepth : Int
  timedOut : Bool
  handlerRegistered : Bool
  moves : List InfoRec
  lastEvaluation : Option Score
  settled : Option (Except String AnalysisResult)
  deriving Repr, DecidableEq

/-- `settle(fn)` in `getAnalysis`: once only; `cleanup()` removes the
request's line handler, clears the timers and tries to reset `MultiPV`
to 1 (a throw is swallowed); then the outcome is recorded. -/
def settleAnalysis (st : AnalysisSt) (out : Except String AnalysisResult) : AnalysisSt :=
  if st.settled.isSome then st
  else
    let eng1 := (sendCommand st.eng "setoption name MultiPV value 1").1
    { st with eng := eng1, handlerRegistered := false, settled := some out }

/-- One event of the `getAnalysis` request machine: the deadline callback
(`timedOut = true`, best-effort `stop`), the grace-timer callback (poison
the session, terminate, reject), and the registered line handler. -/
def stepAnalysis (st : AnalysisSt) (ev : ReqEv) : AnalysisSt :=
  match ev with
  | .deadline =>
      if st.settled.isSome then st
      else { st with timedOut := true, eng := (sendCommand st.eng "stop").1 }
  | .grace =>
      if st.settled.isSome || !st.timedOut then st
      else
        let st1 := { st with eng := terminate { st.eng with engineCrashed := true } }
        settleAnalysis st1 (.error "Engine analysis timeout")
  | .line s =>
      if st.settled.isSome || !st.handlerRegistered then st
      else if strStartsWith s "info" && strIncludes s "pv" then
        match parseInfoLine s with
        | some a =>
            let moves1 := upsertMove st.moves a
            let lastE :=
              if jsEqOptInt a.multipv (some 1) then a.score else st.lastEvaluation
            { st with moves := moves1, lastEvaluation := lastE }
        | none => st
      else if !(strStartsWith s "bestmove") then st
      else
        let bm := (jsSplitSpace s).get? 1
        let sorted := sortByRank st.moves
        if st.timedOut then
          settleAnalysis { st with moves := sorted } (.error "Engine analysis timeout")
        else
          settleAnalysis { st with moves := sorted }
            (.ok ⟨bm, st.lastEvaluation, sorted, st.reqDepth⟩)

/-- The synchronous start of one `getAnalysis(fen, numMoves, depth)` task
(after the `_enqueue` guard has passed): send `setoption MultiPV`,
`position fen`, `go depth`, then register the line handler; if a send
throws, the request settles at once by rejecting with that error. -/
def analysisStart (eng : EngineSt) (fen : String) (numMoves reqDepth : Int) : AnalysisSt :=
  let base : AnalysisSt :=
    { eng := eng, numMoves := numMoves, reqDepth := reqDepth, timedOut := false,
      handlerRegistered := false, moves := [], lastEvaluation := none, settled := none }
  match sendCommand eng ("setoption name MultiPV value " ++ toString numMoves) with
  | (e1, some err) => settleAnalysis { base with eng := e1 } (.error err)
  | (e1, none) =>
      match sendCommand e1 ("position fen " ++ fen) with
      | (e2, some err) => settleAnalysis { base with eng := e2 } (.error err)
      | (e2, none) =>
          match sendCommand e2 ("go depth " ++ toString reqDepth) with
          | (e3, some err) => settleAnalysis { base with eng := e3 } (.error err)
          | (e3, none) => { base with eng := e3, handlerRegistered := true }

/-- The per-request state of one `getBestMove` call. The request resolves
with `line.split(" ")[1]`, which is absent when the terminal line has no
second token. -/
structure BestMoveSt where
  eng : EngineSt
  timedOut : Bool
  handlerRegistered : Bool
  settled : Option (Except String (Option String))
  deriving Repr, DecidableEq

/-- `settle(fn)` in `getBestMove`: once only; cleanup removes the line
handler and clears the timers. -/
def settleBestMove (st : BestMoveSt) (out : Except String (Option String)) : BestMoveSt :=
  if st.settled.isSome then st
  else { st with handlerRegistered := false, settled := some out }

/-- One event of the `getBestMove` request machine. -/
def stepBestMove (st : BestMoveSt) (ev : ReqEv) : BestMoveSt :=
  match ev with
  | .deadline =>
      if st.settled.isSome then st
      else { st with timedOut := true, eng := (sendCommand st.eng "stop").1 }
  | .grace =>
      if st.settled.isSome || !st.timedOut then st
      else
        let st1 := { st with eng := terminate { st.eng with engineCrashed := true } }
        settleBestMove st1 (.error "Engine response timeout")
  | .line s =>
      if st.settled.isSome || !st.handlerRegistered then st
      else if !(strStartsWith s "bestmove") then st
      else if st.timedOut then settleBestMove st (.error "Engine response timeout")
      else settleBestMove st (.ok ((jsSplitSpace s).get? 1))

/-! ## Sample sessions used for concrete instantiations -/

/-- A session right after `initialize()` succeeded: the binding is up but
the handshake has not run yet. -/
def initializedEngine : EngineSt :=
  { engineInit := true, engineReady := false, engineCrashed := false,
    handlers := [], uciOk := false, optionsApplied := false,
    config := (newEngine {}).config, sent := [] }

/-- A session whose handshake has completed: ready to search. -/
def readyEngine : EngineSt :=
  { initializedEngine with engineReady := true, uciOk := true, optionsApplied := true }

/-- A poisoned session. -/
def crashedEngine : EngineSt :=
  { readyEngine with engineCrashed := true }

/-- A mid-flight `getAnalysis` request holding one complete rank-1
candidate record. -/
def sampleAnalysisSt : AnalysisSt :=
  { eng := readyEngine, numMoves := 3, reqDepth := 15, timedOut := false,
    handlerRegistered := true,
    moves := [⟨some 1, some ⟨"cp", some 100⟩, some "d2d4", some 12⟩],
    lastEvaluation := some ⟨"cp", some 100⟩, settled := none }

/-- A mid-flight `getBestMove` request. -/
def sampleBestMoveSt : BestMoveSt :=
  { eng := readyEngine, timedOut := false, handlerRegistered := true, settled := none }

/-! ## Helper lemmas about `sendCommand` -/

theorem sendCommand_fst_engineCrashed (st : EngineSt) (cmd : String) :
    ((sendCommand st cmd).1).engineCrashed = st.engineCrashed := by
  unfold sendCommand
  split
  · rfl
  · split
    · rfl
    · rfl

theorem sendCommand_fst_engineInit (st : EngineSt) (cmd : String) :
    ((sendCommand st cmd).1).engineInit = st.engineInit := by
  unfold sendCommand
  split
  · rfl
  · split
    · rfl
    · rfl

theorem sendCommand_fst_engineReady (st : EngineSt) (cmd : String) :
    ((sendCommand st cmd).1).engineReady = st.engineReady := by
  unfold sendCommand
  split
  · rfl
  · split
    · rfl
    · rfl

theorem sendCommand_fst_optionsApplied (st : EngineSt) (cmd : String) :
    ((sendCommand st cmd).1).optionsApplied = st.optionsApplied := by
  unfold sendCommand
  split
  · rfl
  · split
    · rfl
    · rfl

theorem sendCommand_fst_handlers (st : EngineSt) (cmd : String) :
    ((sendCommand st cmd).1).handlers = st.handlers := by
  unfold sendCommand
  split
  · rfl
  · split
    · rfl
    · rfl

theorem sendCommand_crashed (st : EngineSt) (cmd : String) (h : st.engineCrashed = true) :
    sendCommand st cmd = (st, some "Chess engine is not running") := by
  unfold sendCommand
  simp [h]

theorem sendCommand_alive (st : EngineSt) (cmd : String) (h1 : st.engineCrashed = false)
    (h2 : st.engineInit = true) :
    sendCommand st cmd = ({ st with sent := st.sent ++ [cmd] }, none) := by
  unfold sendCommand
  simp [h1, h2]

/-! ## C9 — the line parser is total -/

/-- C9: the line parser is a pure total function: for every input line —
malformed or unrecognized ones included — it returns normally, either
with the ignore result (`none`) or with a parsed record; a returned
record always carries a truthy principal move and a score. As a total
Lean function over all strings, `parseInfoLine` cannot throw. -/
theorem c9_parse_total (line : String) :
    parseInfoLine line = none ∨
      ∃ r : InfoRec, parseInfoLine line = some r ∧
        jsTruthyStr r.move = true ∧ r.score.isSome = true := by
  by_cases h : (jsTruthyStr (rawParse line).move && (rawParse line).score.isSome) = true
  · right
    refine ⟨rawParse line, ?_, ?_, ?_⟩
    · simp [parseInfoLine, h]
    · rw [Bool.and_eq_true] at h
      exact h.1
    · rw [Bool.and_eq_true] at h
      exact h.2
  · left
    simp [parseInfoLine, h]

/-! ## C2 — which absent fields make a progress line ignored -/

/-- C2 counterexample: the line `"info score cp 15 pv e2e4"` has no
`multipv` token, yet `parseInfoLine` returns a record (the rank defaults
to 1) instead of the claimed ignore result, and that record does
overwrite a previously accumulated complete rank-1 `CandidateRecord` in
the upsert. -/
theorem c2_counterexample :
    parseInfoLine "info score cp 15 pv e2e4" ≠ none ∧
      parseInfoLine "info score cp 15 pv e2e4" =
        some ⟨some 1, some ⟨"cp", some 15⟩, some "e2e4", some 0⟩ ∧
      upsertMove [⟨some 1, some ⟨"cp", some 100⟩, some "d2d4", some 12⟩]
          ⟨some 1, some ⟨"cp", some 15⟩, some "e2e4", some 0⟩ =
        [⟨some 1, some ⟨"cp", some 15⟩, some "e2e4", some 0⟩] := by
  refine ⟨?_, ?_, ?_⟩ <;> decide

/-- C2 amended: if the `score` field or a truthy `pv` move is absent
after the token scan, the parser emits the ignore result, and such a
line leaves the accumulated candidates, the running evaluation and the
settlement of a `getAnalysis` request unchanged — so it never overwrites
a previously accumulated complete `CandidateRecord` at any rank. (An
absent `multipv` does not cause an ignore: the rank defaults to 1.) -/
theorem c2_amended (line : String) (st : AnalysisSt)
    (h : (rawParse line).score = none ∨ jsTruthyStr (rawParse line).move = false) :
    parseInfoLine line = none ∧
      (strStartsWith line "bestmove" = false →
        (stepAnalysis st (.line line)).moves = st.moves ∧
          (stepAnalysis st (.line line)).lastEvaluation = st.lastEvaluation ∧
          (stepAnalysis st (.line line)).settled = st.settled) := by
  have hp : parseInfoLine line = none := by
    rcases h with h | h
    · simp [parseInfoLine, h]
    · simp [parseInfoLine, h]
  refine ⟨hp, fun hbm => ?_⟩
  unfold stepAnalysis
  by_cases hs : (st.settled.isSome || !st.handlerRegistered) = true
  · simp [hs]
  · by_cases hinfo : (strStartsWith line "info" && strIncludes line "pv") = true
    · simp [hs, hinfo, hp]
    · simp [hs, hinfo, hbm]

/-- Witness for the amended C2 at a concrete ignored line and a concrete
mid-flight request. -/
theorem c2_amended_witness :
    parseInfoLine "info depth 5" = none ∧
      (strStartsWith "info depth 5" "bestmove" = false →
        (stepAnalysis sampleAnalysisSt (.line "info depth 5")).moves =
            sampleAnalysisSt.moves ∧
          (stepAnalysis sampleAnalysisSt (.line "info depth 5")).lastEvaluation =
            sampleAnalysisSt.lastEvaluation ∧
          (stepAnalysis sampleAnalysisSt (.line "info depth 5")).settled =
            sampleAnalysisSt.settled) :=
  c2_amended "info depth 5" sampleAnalysisSt (Or.inl (by decide))

/-! ## C7 — finalizing with zero accumulated records succeeds -/

/-- C7: a `getAnalysis` request that receives a terminal `bestmove` line
while zero progress records have been accumulated still resolves
successfully — with the terminal move, a null evaluation and an empty
candidate list — rather than failing. -/
theorem c7_empty_finalize (st : AnalysisSt) (line : String)
    (hset : st.settled = none) (hreg : st.handlerRegistered = true)
    (hto : st.timedOut = false) (hmoves : st.moves = [])
    (heval : st.lastEvaluation = none)
    (hinfo : strStartsWith line "info" = false)
    (hbm : strStartsWith line "bestmove" = true) :
    (stepAnalysis st (.line line)).settled =
      some (.ok ⟨(jsSplitSpace line).get? 1, none, [], st.reqDepth⟩) := by
  unfold stepAnalysis settleAnalysis
  simp [hset, hreg, hto, hmoves, heval, hinfo, hbm, sortByRank]

/-- Witness for C7: a fresh `getAnalysis` request receiving only
`bestmove e2e4`. -/
theorem c7_empty_finalize_witness :
    (stepAnalysis (analysisStart readyEngine "5k2/8/5K2/5Q2/8/8/8/8 w - - 0 1" 3 15)
        (.line "bestmove e2e4")).settled =
      some (.ok ⟨(jsSplitSpace "bestmove e2e4").get? 1, none, [],
        (analysisStart readyEngine "5k2/8/5K2/5Q2/8/8/8/8 w - - 0 1" 3 15).reqDepth⟩) :=
  c7_empty_finalize _ _ (by decide) (by decide) (by decide) (by decide) (by decide)
    (by decide) (by decide)

/-! ## C5 — a late terminal line still reports a timeout -/

/-- C5: for both request kinds, once the request's deadline has elapsed
(the timeout callback has run), a terminal `bestmove` line arriving
during the grace period settles the request by rejecting with the
timeout error — never by resolving with the late answer. -/
theorem c5_late_terminal_rejects :
    (∀ (st : BestMoveSt) (line : String),
        st.settled = none → st.handlerRegistered = true →
        strStartsWith line "bestmove" = true →
        (stepBestMove (stepBestMove st .deadline) (.line line)).settled =
          some (.error "Engine response timeout")) ∧
      (∀ (st : AnalysisSt) (line : String),
        st.settled = none → st.handlerRegistered = true →
        strStartsWith line "info" = false →
        strStartsWith line "bestmove" = true →
        (stepAnalysis (stepAnalysis st .deadline) (.line line)).settled =
          some (.error "Engine analysis timeout")) := by
  constructor
  · intro st line hset hreg hbm
    unfold stepBestMove settleBestMove
    simp [hset, hreg, hbm]
  · intro st line hset hreg hinfo hbm
    unfold stepAnalysis settleAnalysis
    simp [hset, hreg, hinfo, hbm]

/-- Witness for C5: both request kinds, with the deadline firing before
`bestmove e2e4` arrives. -/
theorem c5_late_terminal_rejects_witness :
    (stepBestMove (stepBestMove sampleBestMoveSt .deadline) (.line "bestmove e2e4")).settled =
        some (.error "Engine response timeout") ∧
      (stepAnalysis (stepAnalysis sampleAnalysisSt .deadline) (.line "bestmove e2e4")).settled =
        some (.error "Engine analysis timeout") :=
  ⟨c5_late_terminal_rejects.1 sampleBestMoveSt "bestmove e2e4" (by decide) (by decide)
      (by decide),
    c5_late_terminal_rejects.2 sampleAnalysisSt "bestmove e2e4" (by decide) (by decide)
      (by decide) (by decide)⟩

/-! ## C1 — the request serializer -/

/-- The chain invariant behind `_enqueue`: starting from any current
queue promise `q`, enqueueing a batch `ts` appends exactly the
serialized trace of the batch to `q`'s trace, and hands each caller a
promise settling with its own task's outcome. -/
theorem enqueueAll_spec (st : EngineSt) (hg : runGuard st = none) :
    ∀ (ts : List (Except String Nat)) (i0 : Nat) (q : Prom Unit),
      (enqueueAll st ts i0 q).1.trace = q.trace ++ serialTrace i0 ts ∧
        (enqueueAll st ts i0 q).2.map Prom.out = ts := by
  intro ts
  induction ts with
  | nil =>
      intro i0 q
      simp [enqueueAll, serialTrace]
  | cons t ts ih =>
      intro i0 q
      have hp : q.pthen (fun _ => runItem st i0 t) (fun _ => runItem st i0 t) =
          ⟨q.trace ++ [QEv.start i0, QEv.settle i0 (exceptOk t)], t⟩ := by
        cases hq : q.out <;> simp [Prom.pthen, hq, runItem, hg]
      have hmain := ih (i0 + 1)
        (Prom.swallow ⟨q.trace ++ [QEv.start i0, QEv.settle i0 (exceptOk t)], t⟩)
      constructor
      · simp only [enqueueAll, hp]
        rw [hmain.1]
        simp [Prom.swallow, serialTrace]
      · simp only [enqueueAll, hp, List.map_cons]
        rw [hmain.2]

/-- C1: work items enqueued through `_enqueue` run strictly one at a
time in first-enqueued-first-run order: the trace of the promise chain
is exactly `start 0, settle 0, start 1, settle 1, …`, so item N+1 starts
only after item N's future has settled; a failing item (its `settle`
event carries `ok := false`) is followed by the next item's start all
the same; and each caller's future settles with its own task's outcome. -/
theorem c1_enqueue_serializes (st : EngineSt) (ts : List (Except String Nat))
    (hg : runGuard st = none) :
    (enqueueAll st ts 0 ⟨[], .ok ()⟩).1.trace = serialTrace 0 ts ∧
      (enqueueAll st ts 0 ⟨[], .ok ()⟩).2.map Prom.out = ts := by
  have h := enqueueAll_spec st hg ts 0 ⟨[], .ok ()⟩
  simpa using h

/-- Witness for C1: a ready session and a batch whose middle item fails. -/
theorem c1_enqueue_serializes_witness :
    (enqueueAll readyEngine [.ok 7, .error "boom", .ok 9] 0 ⟨[], .ok ()⟩).1.trace =
        serialTrace 0 [.ok 7, .error "boom", .ok 9] ∧
      (enqueueAll readyEngine [.ok 7, .error "boom", .ok 9] 0 ⟨[], .ok ()⟩).2.map Prom.out =
        [.ok 7, .error "boom", .ok 9] :=
  c1_enqueue_serializes readyEngine [.ok 7, .error "boom", .ok 9] (by decide)

/-! ## C3 — concurrent `waitForReady` calls -/

/-- C3 counterexample: a second `waitForReady` call made before the
first one completes sends the handshake-init command again — after two
calls the binding has received `uci` twice and both init handlers are
registered, contradicting "the `uci` command is not sent a second time;
only the first caller performs the handshake". -/
theorem c3_counterexample :
    ((waitForReadyStart (waitForReadyStart initializedEngine "init-1").1 "init-2").1).sent =
        ["uci", "uci"] ∧
      ((waitForReadyStart (waitForReadyStart initializedEngine "init-1").1 "init-2").1).handlers =
        ["init-1", "init-2"] := by
  constructor <;> decide

theorem sendCommand_eq_optionsApplied {st st2 : EngineSt} {cmd : String}
    {err : Option String} (h : sendCommand st cmd = (st2, err)) :
    st2.optionsApplied = st.optionsApplied := by
  have h2 := sendCommand_fst_optionsApplied st cmd
  rw [h] at h2
  exact h2

theorem sendCommand_eq_engineCrashed {st st2 : EngineSt} {cmd : String}
    {err : Option String} (h : sendCommand st cmd = (st2, err)) :
    st2.engineCrashed = st.engineCrashed := by
  have h2 := sendCommand_fst_engineCrashed st cmd
  rw [h] at h2
  exact h2

theorem applyUciOptions_flag (st : EngineSt) :
    ((applyUciOptions st).1).optionsApplied = true := by
  unfold applyUciOptions
  by_cases h : st.optionsApplied = true
  · simp [h]
  · simp only [h, Bool.false_eq_true, if_false]
    split
    · rename_i st2 e heq
      rw [sendCommand_eq_optionsApplied heq]
    · rename_i st2 heq
      rw [sendCommand_fst_optionsApplied]
      rw [sendCommand_eq_optionsApplied heq]

/-- C3 amended: `waitForReady` itself is not idempotent — every call
registers its own handler and sends its own `uci` (see the
counterexample) — but the option-application step of the handshake is
once-only: `_applyUciOptions` raises `_optionsApplied` before sending
anything, so after any application the flag is up and a second
application (triggered by any later `uciok`, including one provoked by a
concurrent call's duplicate `uci`) changes no state and sends nothing. -/
theorem c3_amended (st : EngineSt) :
    ((applyUciOptions st).1).optionsApplied = true ∧
      applyUciOptions (applyUciOptions st).1 = ((applyUciOptions st).1, none) := by
  have hdone : ∀ s : EngineSt, s.optionsApplied = true → applyUciOptions s = (s, none) := by
    intro s hs
    unfold applyUciOptions
    simp [hs]
  exact ⟨applyUciOptions_flag st, hdone _ (applyUciOptions_flag st)⟩

/-! ## C4 — a crashed session is terminal -/

theorem settleAnalysis_crashed (st : AnalysisSt) (out : Except String AnalysisResult)
    (h : st.eng.engineCrashed = true) :
    ((settleAnalysis st out).eng).engineCrashed = true := by
  unfold settleAnalysis
  split
  · exact h
  · show ((sendCommand st.eng "setoption name MultiPV value 1").1).engineCrashed = true
    rw [sendCommand_fst_engineCrashed]
    exact h

theorem settleBestMove_eng (st : BestMoveSt) (out : Except String (Option String)) :
    (settleBestMove st out).eng = st.eng := by
  unfold settleBestMove
  split
  · rfl
  · rfl

/-- C4: once `engineCrashed` is true it never reverts under any modelled
operation of the session, and from that point every enqueued request
(`getBestMove`, `getAnalysis`) fails at the `_enqueue` guard before its
task body runs, and every `sendCommand` throws with the state — hence
the log of commands delivered to the binding — unchanged. -/
theorem c4_crash_terminal :
    (∀ (st : EngineSt) (cmd : String), st.engineCrashed = true →
        sendCommand st cmd = (st, some "Chess engine is not running")) ∧
      (∀ st : EngineSt, st.engineCrashed = true →
        runGuard st = some "Chess engine is not running") ∧
      (∀ (st : EngineSt) (hid : String), st.engineCrashed = true →
        ((waitForReadyStart st hid).1).engineCrashed = true) ∧
      (∀ (st : EngineSt) (hid line : String), st.engineCrashed = true →
        ((initHandlerLine st hid line).1).engineCrashed = true) ∧
      (∀ st : EngineSt, st.engineCrashed = true →
        ((applyUciOptions st).1).engineCrashed = true) ∧
      (∀ (st : EngineSt) (line : String), st.engineCrashed = true →
        (listenerMark st line).engineCrashed = true) ∧
      (∀ st : EngineSt, (initializeFail st).engineCrashed = true) ∧
      (∀ st : EngineSt, st.engineCrashed = true → (terminate st).engineCrashed = true) ∧
      (∀ (st : AnalysisSt) (ev : ReqEv), st.eng.engineCrashed = true →
        ((stepAnalysis st ev).eng).engineCrashed = true) ∧
      (∀ (st : BestMoveSt) (ev : ReqEv), st.eng.engineCrashed = true →
        ((stepBestMove st ev).eng).engineCrashed = true) ∧
      (∀ (eng : EngineSt) (fen : String) (n d : Int), eng.engineCrashed = true →
        ((analysisStart eng fen n d).eng).engineCrashed = true) := by
  refine ⟨?_, ?_, ?_, ?_, ?_, ?_, ?_, ?_, ?_, ?_, ?_⟩
  · intro st cmd h
    exact sendCommand_crashed st cmd h
  · intro st h
    unfold runGuard
    simp [h]
  · intro st hid h
    unfold waitForReadyStart
    simp [h]
  · intro st hid line h
    unfold initHandlerLine
    simp [h]
  · intro st h
    unfold applyUciOptions
    by_cases hopt : st.optionsApplied = true
    · simp [hopt, h]
    · simp only [hopt, Bool.false_eq_true, if_false]
      split
      · rename_i st2 e heq
        rw [sendCommand_eq_engineCrashed heq]
        exact h
      · rename_i st2 heq
        rw [sendCommand_fst_engineCrashed]
        rw [sendCommand_eq_engineCrashed heq]
        exact h
  · intro st line h
    unfold listenerMark
    split
    · exact h
    · exact h
  · intro st
    rfl
  · intro st h
    exact h
  · intro st ev h
    cases ev with
    | deadline =>
        simp only [stepAnalysis]
        split
        · exact h
        · show ((sendCommand st.eng "stop").1).engineCrashed = true
          rw [sendCommand_fst_engineCrashed]
          exact h
    | grace =>
        simp only [stepAnalysis]
        split
        · exact h
        · exact settleAnalysis_crashed _ _ (by simp [terminate])
    | line s =>
        simp only [stepAnalysis]
        split
        · exact h
        · split
          · split
            · exact h
            · exact h
          · split
            · exact h
            · split
              · exact settleAnalysis_crashed _ _ h
              · exact settleAnalysis_crashed _ _ h
  · intro st ev h
    cases ev with
    | deadline =>
        simp only [stepBestMove]
        split
        · exact h
        · show ((sendCommand st.eng "stop").1).engineCrashed = true
          rw [sendCommand_fst_engineCrashed]
          exact h
    | grace =>
        simp only [stepBestMove]
        split
        · exact h
        · rw [settleBestMove_eng]
          simp [terminate]
    | line s =>
        simp only [stepBestMove]
        split
        · exact h
        · split
          · exact h
          · split
            · rw [settleBestMove_eng]
              exact h
            · rw [settleBestMove_eng]
              exact h
  · intro eng fen n d h
    unfold analysisStart
    rw [sendCommand_crashed _ _ h]
    exact settleAnalysis_crashed _ _ h

/-- Witness for C4 at a concrete crashed session. -/
theorem c4_crash_terminal_witness :
    sendCommand crashedEngine "go depth 15" =
        (crashedEngine, some "Chess engine is not running") ∧
      runGuard crashedEngine = some "Chess engine is not running" ∧
      ((waitForReadyStart crashedEngine "init-1").1).engineCrashed = true :=
  ⟨c4_crash_terminal.1 crashedEngine "go depth 15" (by decide),
    c4_crash_terminal.2.1 crashedEngine (by decide),
    c4_crash_terminal.2.2.1 crashedEngine "init-1" (by decide)⟩

/-! ## C8 — configuration values are not range-checked -/

/-- C8 counterexample: `threads = 0` is below the range the spec says is
allowed, yet the constructor stores it without raising anything, and
once `uciok` arrives `_applyUciOptions` sends the out-of-range value to
the engine as a `setoption` command. No `InvalidConfiguration` error
path exists in the code. -/
theorem c8_counterexample :
    (newEngine { threads := some 0 }).config.threads = 0 ∧
      (applyUciOptions
          { newEngine { threads := some 0 } with engineInit := true }).1.sent =
        ["setoption name Threads value 0", "setoption name Hash value 128"] ∧
      (applyUciOptions
          { newEngine { threads := some 0 } with engineInit := true }).2 = none := by
  refine ⟨?_, ?_, ?_⟩ <;> decide

/-- C8 amended: initialization performs no range validation at all:
every finite option value — including values below 1 — is stored in the
configuration unchanged and later forwarded verbatim to the engine as a
`setoption` command; only non-finite values are replaced by defaults,
and no error is ever raised for an out-of-range value. -/
theorem c8_amended (t hs d : Int) :
    (newEngine { threads := some t, hashSize := some hs, depth := some d }).config.threads
        = t ∧
      (newEngine { threads := some t, hashSize := some hs, depth := some d }).config.hashSize
        = hs ∧
      (newEngine { threads := some t, hashSize := some hs, depth := some d }).config.depth
        = d ∧
      (applyUciOptions { newEngine { threads := some t, hashSize := some hs, depth := some d }
          with engineInit := true }).1.sent =
        ["setoption name Threads value " ++ toString t,
          "setoption name Hash value " ++ toString hs] := by
  refine ⟨rfl, rfl, rfl, ?_⟩
  simp [applyUciOptions, newEngine, sendCommand]

/-! ## C10 — cleanup on the settlement paths of `getAnalysis` -/

/-- A `getAnalysis` request whose deadline and grace period both expire:
the engine never answers, the watchdog poisons the session and the
request settles by rejection. -/
def graceExpiredRun : AnalysisSt :=
  stepAnalysis
    (stepAnalysis (analysisStart readyEngine "8/8/8/8/8/8/8/K6k w - - 0 1" 3 15) .deadline)
    .grace

/-- C10 counterexample: on the grace-expiry settlement path (timeout
rejection) the session is poisoned *before* cleanup runs, so cleanup's
`MultiPV` reset is thrown away by `sendCommand` instead of being
delivered: the request settles and its handler is removed, yet no
`setoption name MultiPV value 1` ever reaches the binding. -/
theorem c10_counterexample :
    (graceExpiredRun.settled).isSome = true ∧
      graceExpiredRun.handlerRegistered = false ∧
      ¬ ("setoption name MultiPV value 1" ∈ graceExpiredRun.eng.sent) := by
  refine ⟨?_, ?_, ?_⟩ <;> decide

/-- C10 amended: on every settlement path of a `getAnalysis` request the
cleanup removes the request's line handler, and the `MultiPV` reset
command is delivered exactly when the engine binding is still usable at
settlement time (initialized and not crashed); on the grace-expiry and
send-failure paths `sendCommand` throws and the swallowed reset never
reaches the binding. -/
theorem c10_amended :
    (∀ (st : AnalysisSt) (ev : ReqEv), st.settled = none →
        ((stepAnalysis st ev).settled).isSome = true →
        (stepAnalysis st ev).handlerRegistered = false ∧
          (((stepAnalysis st ev).eng.engineCrashed = false ∧
              (stepAnalysis st ev).eng.engineInit = true) →
            (stepAnalysis st ev).eng.sent =
              st.eng.sent ++ ["setoption name MultiPV value 1"])) ∧
      (∀ (eng : EngineSt) (fen : String) (n d : Int),
        ((analysisStart eng fen n d).settled).isSome = true →
        (analysisStart eng fen n d).handlerRegistered = false) := by
  constructor
  · intro st ev hset hsettles
    cases ev with
    | deadline =>
        exfalso
        simp only [stepAnalysis] at hsettles
        split at hsettles
        · simp [hset] at hsettles
        · simp [hset] at hsettles
    | grace =>
        by_cases hto : st.timedOut = true
        · have hred : stepAnalysis st .grace =
              settleAnalysis { st with eng := terminate { st.eng with engineCrashed := true } }
                (.error "Engine analysis timeout") := by
            simp only [stepAnalysis]
            rw [if_neg]
            rw [hset, hto]
            simp
          rw [hred]
          constructor
          · simp [settleAnalysis, hset]
          · intro hc
            exfalso
            have hcr := settleAnalysis_crashed
              { st with eng := terminate { st.eng with engineCrashed := true } }
              (.error "Engine analysis timeout") (by simp [terminate])
            rw [hc.1] at hcr
            exact Bool.noConfusion hcr
        · exfalso
          simp only [stepAnalysis] at hsettles
          rw [if_pos] at hsettles
          · rw [hset] at hsettles
            simp at hsettles
          · simp [Bool.not_eq_true] at hto
            rw [hto]
            simp
    | line s =>
        by_cases hreg : st.handlerRegistered = true
        · by_cases hinfo : (strStartsWith s "info" && strIncludes s "pv") = true
          · exfalso
            cases hpar : parseInfoLine s with
            | some a =>
                have hred : stepAnalysis st (.line s) =
                    { st with
                      moves := upsertMove st.moves a,
                      lastEvaluation := if jsEqOptInt a.multipv (some 1) then a.score
                        else st.lastEvaluation } := by
                  simp only [stepAnalysis]
                  rw [if_neg (by rw [hset, hreg]; simp)]
                  rw [if_pos hinfo, hpar]
                rw [hred] at hsettles
                simp [hset] at hsettles
            | none =>
                have hred : stepAnalysis st (.line s) = st := by
                  simp only [stepAnalysis]
                  rw [if_neg (by rw [hset, hreg]; simp)]
                  rw [if_pos hinfo, hpar]
                rw [hred, hset] at hsettles
                simp at hsettles
          · by_cases hbm : strStartsWith s "bestmove" = true
            · have hred : stepAnalysis st (.line s) =
                  settleAnalysis { st with moves := sortByRank st.moves }
                    (if st.timedOut then .error "Engine analysis timeout"
                      else .ok ⟨(jsSplitSpace s).get? 1, st.lastEvaluation,
                        sortByRank st.moves, st.reqDepth⟩) := by
                simp only [stepAnalysis]
                rw [if_neg (by rw [hset, hreg]; simp)]
                rw [if_neg hinfo]
                rw [if_neg (by rw [hbm]; simp)]
                by_cases hto : st.timedOut = true
                · rw [if_pos hto, if_pos hto]
                · rw [if_neg hto, if_neg hto]
              rw [hred]
              constructor
              · simp [settleAnalysis, hset]
              · intro hc
                have h1 : st.eng.engineCrashed = false := by
                  have h2 := hc.1
                  rw [show (settleAnalysis { st with moves := sortByRank st.moves }
                      (if st.timedOut then .error "Engine analysis timeout"
                        else .ok ⟨(jsSplitSpace s).get? 1, st.lastEvaluation,
                          sortByRank st.moves, st.reqDepth⟩)).eng =
                      (sendCommand st.eng "setoption name MultiPV value 1").1 from by
                    unfold settleAnalysis
                    rw [if_neg (by rw [hset]; simp)]] at h2
                  rw [sendCommand_fst_engineCrashed] at h2
                  exact h2
                have h2 : st.eng.engineInit = true := by
                  have h3 := hc.2
                  rw [show (settleAnalysis { st with moves := sortByRank st.moves }
                      (if st.timedOut then .error "Engine analysis timeout"
                        else .ok ⟨(jsSplitSpace s).get? 1, st.lastEvaluation,
                          sortByRank st.moves, st.reqDepth⟩)).eng =
                      (sendCommand st.eng "setoption name MultiPV value 1").1 from by
                    unfold settleAnalysis
                    rw [if_neg (by rw [hset]; simp)]] at h3
                  rw [sendCommand_fst_engineInit] at h3
                  exact h3
                rw [show (settleAnalysis { st with moves := sortByRank st.moves }
                    (if st.timedOut then .error "Engine analysis timeout"
                      else .ok ⟨(jsSplitSpace s).get? 1, st.lastEvaluation,
                        sortByRank st.moves, st.reqDepth⟩)).eng =
                    (sendCommand st.eng "setoption name MultiPV value 1").1 from by
                  unfold settleAnalysis
                  rw [if_neg (by rw [hset]; simp)]]
                rw [sendCommand_alive _ _ h1 h2]
            · exfalso
              have hred : stepAnalysis st (.line s) = st := by
                simp only [stepAnalysis]
                rw [if_neg (by rw [hset, hreg]; simp)]
                rw [if_neg hinfo]
                rw [if_pos (by rw [Bool.not_eq_true] at hbm; rw [hbm]; simp)]
              rw [hred, hset] at hsettles
              simp at hsettles
        · exfalso
          have hred : stepAnalysis st (.line s) = st := by
            simp only [stepAnalysis]
            rw [if_pos]
            rw [Bool.not_eq_true] at hreg
            rw [hreg]
            simp
          rw [hred, hset] at hsettles
          simp at hsettles
  · intro eng fen n d hs
    unfold analysisStart at hs ⊢
    rcases h1 : sendCommand eng ("setoption name MultiPV value " ++ toString n)
      with ⟨e1, o1⟩
    rw [h1] at hs
    cases o1 with
    | some err => simp [settleAnalysis]
    | none =>
        dsimp only at hs ⊢
        rcases h2 : sendCommand e1 ("position fen " ++ fen) with ⟨e2, o2⟩
        rw [h2] at hs
        cases o2 with
        | some err => simp [settleAnalysis]
        | none =>
            dsimp only at hs ⊢
            rcases h3 : sendCommand e2 ("go depth " ++ toString d) with ⟨e3, o3⟩
            rw [h3] at hs
            cases o3 with
            | some err => simp [settleAnalysis]
            | none => simp at hs

/-- Witness for the amended C10: the normal resolution path of a live
request delivers the `MultiPV` reset and removes the handler. -/
theorem c10_amended_witness :
    (stepAnalysis sampleAnalysisSt (.line "bestmove d2d4")).handlerRegistered = false ∧
      (((stepAnalysis sampleAnalysisSt (.line "bestmove d2d4")).eng.engineCrashed = false ∧
          (stepAnalysis sampleAnalysisSt (.line "bestmove d2d4")).eng.engineInit = true) →
        (stepAnalysis sampleAnalysisSt (.line "bestmove d2d4")).eng.sent =
          sampleAnalysisSt.eng.sent ++ ["setoption name MultiPV value 1"]) :=
  c10_amended.1 sampleAnalysisSt (.line "bestmove d2d4") (by decide) (by decide)

/-! ## C6 — upsert by rank and the sorted candidate list -/

theorem jsEqOptInt_iff {x y : Option Int} (hx : x.isSome = true) :
    (jsEqOptInt x y = true ↔ x = y) := by
  cases x with
  | none => simp at hx
  | some a =>
      cases y with
      | none => simp [jsEqOptInt]
      | some b => simp [jsEqOptInt]

theorem findIdx?_go_shift {α : Type} (p : α → Bool) (l : List α) (i : Nat) :
    List.findIdx? p l i = (List.findIdx? p l 0).map (fun j => j + i) := by
  induction l generalizing i with
  | nil => rfl
  | cons a l ih =>
      show (if p a then some i else List.findIdx? p l (i + 1)) =
        (if p a then some 0 else List.findIdx? p l 1).map (fun j => j + i)
      by_cases h : p a = true
      · simp [h]
      · rw [if_neg h, if_neg h, ih (i + 1), ih 1]
        cases h0 : List.findIdx? p l 0 with
        | none => rfl
        | some j =>
            show some (j + (i + 1)) = some (j + 1 + i)
            rw [Nat.add_assoc, Nat.add_comm 1 i]

theorem upsertMove_eq_rec (moves : List InfoRec) (a : InfoRec) :
    upsertMove moves a = upsertMoveRec moves a := by
  induction moves with
  | nil => rfl
  | cons m ms ih =>
      have hcons : List.findIdx? (fun x => jsEqOptInt x.multipv a.multipv) (m :: ms) =
          if jsEqOptInt m.multipv a.multipv = true then some 0
          else List.findIdx? (fun x => jsEqOptInt x.multipv a.multipv) ms 1 := rfl
      by_cases h : jsEqOptInt m.multipv a.multipv = true
      · unfold upsertMove
        rw [hcons, if_pos h]
        simp only [upsertMoveRec, if_pos h]
        rfl
      · unfold upsertMove
        rw [hcons, if_neg h, findIdx?_go_shift]
        simp only [upsertMoveRec, if_neg h]
        rw [← ih]
        unfold upsertMove
        cases h0 : List.findIdx? (fun x => jsEqOptInt x.multipv a.multipv) ms 0 with
        | none => rfl
        | some j => rfl

theorem mem_upsertMoveRec {moves : List InfoRec} {a m : InfoRec}
    (hsome : ∀ x ∈ moves, (x.multipv).isSome = true)
    (hnd : moves.Pairwise (fun x y => x.multipv ≠ y.multipv))
    (_ha : (a.multipv).isSome = true) :
    (m ∈ upsertMoveRec moves a ↔
      (m = a ∨ (m ∈ moves ∧ m.multipv ≠ a.multipv))) := by
  induction moves with
  | nil => simp [upsertMoveRec]
  | cons x ms ih =>
      have hx : (x.multipv).isSome = true := hsome x (List.mem_cons_self x ms)
      have hxs : ∀ y ∈ ms, x.multipv ≠ y.multipv := (List.pairwise_cons.mp hnd).1
      have hnd' : ms.Pairwise (fun x y => x.multipv ≠ y.multipv) :=
        (List.pairwise_cons.mp hnd).2
      have hsome' : ∀ y ∈ ms, (y.multipv).isSome = true :=
        fun y hy => hsome y (List.mem_cons_of_mem x hy)
      simp only [upsertMoveRec]
      by_cases he : jsEqOptInt x.multipv a.multipv = true
      · rw [if_pos he]
        have hxa : x.multipv = a.multipv := (jsEqOptInt_iff hx).mp he
        simp only [List.mem_cons]
        constructor
        · rintro (hma | hms)
          · exact Or.inl hma
          · have hne := hxs m hms
            rw [hxa] at hne
            exact Or.inr ⟨Or.inr hms, Ne.symm hne⟩
        · rintro (hma | ⟨hmx | hms, hne⟩)
          · exact Or.inl hma
          · exfalso
            apply hne
            rw [hmx]
            exact hxa
          · exact Or.inr hms
      · rw [if_neg he]
        have hxa : x.multipv ≠ a.multipv := fun hc => he ((jsEqOptInt_iff hx).mpr hc)
        simp only [List.mem_cons]
        rw [ih hsome' hnd']
        constructor
        · rintro (hmx | (hma | ⟨hms, hne⟩))
          · subst hmx
            exact Or.inr ⟨Or.inl rfl, hxa⟩
          · exact Or.inl hma
          · exact Or.inr ⟨Or.inr hms, hne⟩
        · rintro (hma | ⟨hmx | hms, hne⟩)
          · exact Or.inr (Or.inl hma)
          · exact Or.inl hmx
          · exact Or.inr (Or.inr ⟨hms, hne⟩)

theorem upsertMoveRec_some {moves : List InfoRec} {a : InfoRec}
    (hsome : ∀ x ∈ moves, (x.multipv).isSome = true)
    (ha : (a.multipv).isSome = true) :
    ∀ x ∈ upsertMoveRec moves a, (x.multipv).isSome = true := by
  induction moves with
  | nil =>
      intro x hx
      simp [upsertMoveRec] at hx
      rw [hx]
      exact ha
  | cons m ms ih =>
      intro x hx
      simp only [upsertMoveRec] at hx
      by_cases he : jsEqOptInt m.multipv a.multipv = true
      · rw [if_pos he] at hx
        rcases List.mem_cons.mp hx with h1 | h2
        · rw [h1]; exact ha
        · exact hsome x (List.mem_cons_of_mem m h2)
      · rw [if_neg he] at hx
        rcases List.mem_cons.mp hx with h1 | h2
        · rw [h1]; exact hsome m (List.mem_cons_self m ms)
        · exact ih (fun y hy => hsome y (List.mem_cons_of_mem m hy)) x h2

theorem upsertMoveRec_pairwise {moves : List InfoRec} {a : InfoRec}
    (hsome : ∀ x ∈ moves, (x.multipv).isSome = true)
    (hnd : moves.Pairwise (fun x y => x.multipv ≠ y.multipv))
    (ha : (a.multipv).isSome = true) :
    (upsertMoveRec moves a).Pairwise (fun x y => x.multipv ≠ y.multipv) := by
  induction moves with
  | nil => simp [upsertMoveRec]
  | cons x ms ih =>
      have hx : (x.multipv).isSome = true := hsome x (List.mem_cons_self x ms)
      have hxs : ∀ y ∈ ms, x.multipv ≠ y.multipv := (List.pairwise_cons.mp hnd).1
      have hnd' := (List.pairwise_cons.mp hnd).2
      have hsome' : ∀ y ∈ ms, (y.multipv).isSome = true :=
        fun y hy => hsome y (List.mem_cons_of_mem x hy)
      simp only [upsertMoveRec]
      by_cases he : jsEqOptInt x.multipv a.multipv = true
      · rw [if_pos he]
        have hxa : x.multipv = a.multipv := (jsEqOptInt_iff hx).mp he
        refine List.pairwise_cons.mpr ⟨?_, hnd'⟩
        intro y hy
        rw [← hxa]
        exact hxs y hy
      · rw [if_neg he]
        have hxa : x.multipv ≠ a.multipv := fun hc => he ((jsEqOptInt_iff hx).mpr hc)
        refine List.pairwise_cons.mpr ⟨?_, ih hsome' hnd'⟩
        intro y hy
        rcases (mem_upsertMoveRec hsome' hnd' ha).mp hy with h1 | ⟨h2, _⟩
        · rw [h1]; exact hxa
        · exact hxs y h2

theorem foldl_upsert_inv (rs : List InfoRec)
    (hval : ∀ r ∈ rs, (r.multipv).isSome = true) :
    ∀ acc : List InfoRec, (∀ x ∈ acc, (x.multipv).isSome = true) →
      acc.Pairwise (fun x y => x.multipv ≠ y.multipv) →
      ((∀ x ∈ rs.foldl upsertMove acc, (x.multipv).isSome = true) ∧
        (rs.foldl upsertMove acc).Pairwise (fun x y => x.multipv ≠ y.multipv)) := by
  induction rs with
  | nil =>
      intro acc h1 h2
      exact ⟨h1, h2⟩
  | cons r rs ih =>
      intro acc h1 h2
      have hr : (r.multipv).isSome = true := hval r (List.mem_cons_self r rs)
      have hval' : ∀ x ∈ rs, (x.multipv).isSome = true :=
        fun x hx => hval x (List.mem_cons_of_mem r hx)
      rw [List.foldl_cons, upsertMove_eq_rec]
      exact ih hval' (upsertMoveRec acc r) (upsertMoveRec_some h1 hr)
        (upsertMoveRec_pairwise h1 h2 hr)

theorem insertByRank_perm (a : InfoRec) (l : List InfoRec) :
    List.Perm (insertByRank a l) (a :: l) := by
  induction l with
  | nil => exact List.Perm.refl _
  | cons b bs ih =>
      simp only [insertByRank]
      by_cases h : rankLe a b = true
      · rw [if_pos h]
      · rw [if_neg h]
        exact List.Perm.trans (List.Perm.cons b ih) (List.Perm.swap a b bs)

theorem sortByRank_perm (l : List InfoRec) : List.Perm (sortByRank l) l := by
  induction l with
  | nil => exact List.Perm.refl _
  | cons a as ih =>
      simp only [sortByRank]
      exact List.Perm.trans (insertByRank_perm a (sortByRank as)) (List.Perm.cons a ih)

theorem rankLe_total {x y : InfoRec} (hx : (x.multipv).isSome = true)
    (hy : (y.multipv).isSome = true) :
    rankLe x y = true ∨ rankLe y x = true := by
  rcases Option.isSome_iff_exists.mp hx with ⟨p, hp⟩
  rcases Option.isSome_iff_exists.mp hy with ⟨q, hq⟩
  unfold rankLe
  rw [hp, hq]
  simp only [decide_eq_true_eq]
  exact Int.le_total p q

theorem rankLe_trans {x y z : InfoRec} (hx : (x.multipv).isSome = true)
    (hy : (y.multipv).isSome = true) (hz : (z.multipv).isSome = true)
    (h1 : rankLe x y = true) (h2 : rankLe y z = true) : rankLe x z = true := by
  rcases Option.isSome_iff_exists.mp hx with ⟨p, hp⟩
  rcases Option.isSome_iff_exists.mp hy with ⟨q, hq⟩
  rcases Option.isSome_iff_exists.mp hz with ⟨r, hr⟩
  unfold rankLe at h1 h2 ⊢
  rw [hp, hq] at h1
  rw [hq, hr] at h2
  rw [hp, hr]
  simp only [decide_eq_true_eq] at h1 h2 ⊢
  exact Int.le_trans h1 h2

theorem pairwise_insertByRank {a : InfoRec} {l : List InfoRec}
    (ha : (a.multipv).isSome = true)
    (hl : ∀ x ∈ l, (x.multipv).isSome = true)
    (hs : l.Pairwise (fun x y => rankLe x y = true)) :
    (insertByRank a l).Pairwise (fun x y => rankLe x y = true) := by
  induction l with
  | nil => simp [insertByRank]
  | cons b bs ih =>
      have hb : (b.multipv).isSome = true := hl b (List.mem_cons_self b bs)
      have hbs : ∀ y ∈ bs, (y.multipv).isSome = true :=
        fun y hy => hl y (List.mem_cons_of_mem b hy)
      have hhead : ∀ y ∈ bs, rankLe b y = true := (List.pairwise_cons.mp hs).1
      have hs' := (List.pairwise_cons.mp hs).2
      simp only [insertByRank]
      by_cases h : rankLe a b = true
      · rw [if_pos h]
        refine List.pairwise_cons.mpr ⟨?_, hs⟩
        intro y hy
        rcases List.mem_cons.mp hy with h1 | h2
        · rw [h1]; exact h
        · exact rankLe_trans ha hb (hbs y h2) h (hhead y h2)
      · rw [if_neg h]
        have hba : rankLe b a = true := by
          rcases rankLe_total ha hb with h1 | h2
          · exact absurd h1 h
          · exact h2
        refine List.pairwise_cons.mpr ⟨?_, ih hbs hs'⟩
        intro y hy
        have hy' := (insertByRank_perm a bs).mem_iff.mp hy
        rcases List.mem_cons.mp hy' with h1 | h2
        · rw [h1]; exact hba
        · exact hhead y h2

theorem pairwise_sortByRank {l : List InfoRec}
    (hl : ∀ x ∈ l, (x.multipv).isSome = true) :
    (sortByRank l).Pairwise (fun x y => rankLe x y = true) := by
  induction l with
  | nil => simp [sortByRank]
  | cons a as ih =>
      have ha : (a.multipv).isSome = true := hl a (List.mem_cons_self a as)
      have has : ∀ x ∈ as, (x.multipv).isSome = true :=
        fun x hx => hl x (List.mem_cons_of_mem a hx)
      simp only [sortByRank]
      refine pairwise_insertByRank ha ?_ (ih has)
      intro x hx
      exact has x ((sortByRank_perm as).mem_iff.mp hx)

theorem pairwise_strict {l : List InfoRec}
    (hl : ∀ x ∈ l, (x.multipv).isSome = true)
    (hle : l.Pairwise (fun x y => rankLe x y = true))
    (hne : l.Pairwise (fun x y => x.multipv ≠ y.multipv)) :
    l.Pairwise (fun x y => (x.multipv).getD 0 < (y.multipv).getD 0) := by
  induction l with
  | nil => exact List.Pairwise.nil
  | cons a as ih =>
      have ha : (a.multipv).isSome = true := hl a (List.mem_cons_self a as)
      have has : ∀ x ∈ as, (x.multipv).isSome = true :=
        fun x hx => hl x (List.mem_cons_of_mem a hx)
      refine List.pairwise_cons.mpr ⟨?_, ih has (List.pairwise_cons.mp hle).2
        (List.pairwise_cons.mp hne).2⟩
      intro y hy
      have h1 := (List.pairwise_cons.mp hle).1 y hy
      have h2 := (List.pairwise_cons.mp hne).1 y hy
      have hyv := has y hy
      rcases Option.isSome_iff_exists.mp ha with ⟨p, hp⟩
      rcases Option.isSome_iff_exists.mp hyv with ⟨q, hq⟩
      unfold rankLe at h1
      rw [hp, hq] at h1
      simp only [decide_eq_true_eq] at h1
      rw [hp, hq] at h2
      rw [hp, hq]
      simp only [Option.getD_some]
      have hpq : p ≠ q := fun hc => h2 (by rw [hc])
      omega

/-- C6: within one `getAnalysis` request, (i) the accumulator upserts by
rank: after upserting a record `a` into accumulated records with
well-formed, pairwise-distinct ranks, the resulting list consists of `a`
together with exactly those prior records whose rank differs from `a`'s
— so a later record for a rank replaces the earlier one; and (ii) for
every sequence of valid progress records (each with a well-formed rank),
the candidate list obtained at the terminal line — the accumulated
records sorted by rank — is strictly ascending in rank: sorted ascending
with no duplicate ranks. -/
theorem c6_upsert_sorted :
    (∀ (moves : List InfoRec) (a m : InfoRec),
        (∀ x ∈ moves, (x.multipv).isSome = true) →
        moves.Pairwise (fun x y => x.multipv ≠ y.multipv) →
        (a.multipv).isSome = true →
        (m ∈ upsertMove moves a ↔
          (m = a ∨ (m ∈ moves ∧ m.multipv ≠ a.multipv)))) ∧
      (∀ rs : List InfoRec, (∀ r ∈ rs, (r.multipv).isSome = true) →
        (sortByRank (rs.foldl upsertMove [])).Pairwise
          (fun x y => (x.multipv).getD 0 < (y.multipv).getD 0)) := by
  constructor
  · intro moves a m h1 h2 ha
    rw [upsertMove_eq_rec]
    exact mem_upsertMoveRec h1 h2 ha
  · intro rs hval
    have hinv := foldl_upsert_inv rs hval [] (by intro x hx; simp at hx)
      List.Pairwise.nil
    have hsome2 : ∀ x ∈ sortByRank (rs.foldl upsertMove []),
        (x.multipv).isSome = true := by
      intro x hx
      exact hinv.1 x ((sortByRank_perm _).mem_iff.mp hx)
    refine pairwise_strict hsome2 (pairwise_sortByRank hinv.1) ?_
    exact (List.Perm.pairwise_iff (fun h => Ne.symm h) (sortByRank_perm _)).mpr hinv.2

/-- A rank-1 progress record. -/
def rec1 : InfoRec := ⟨some 1, some ⟨"cp", some 30⟩, some "e2e4", some 8⟩

/-- A rank-2 progress record. -/
def rec2 : InfoRec := ⟨some 2, some ⟨"cp", some 10⟩, some "d2d4", some 8⟩

/-- A deeper rank-1 progress record, superseding `rec1`. -/
def rec1b : InfoRec := ⟨some 1, some ⟨"cp", some 35⟩, some "e2e4", some 10⟩

/-- Witness for C6: upserting a deeper rank-1 record into `[rec1, rec2]`,
and the sorted ranks of the accumulation `rec2, rec1, rec1b`. -/
theorem c6_upsert_sorted_witness :
    (rec1b ∈ upsertMove [rec1, rec2] rec1b ↔
        (rec1b = rec1b ∨ (rec1b ∈ [rec1, rec2] ∧ rec1b.multipv ≠ rec1b.multipv))) ∧
      (sortByRank ([rec2, rec1, rec1b].foldl upsertMove [])).Pairwise
        (fun x y => (x.multipv).getD 0 < (y.multipv).getD 0) :=
  ⟨c6_upsert_sorted.1 [rec1, rec2] rec1b rec1b (by decide) (by decide) (by decide),
    c6_upsert_sorted.2 [rec2, rec1, rec1b] (by decide)⟩

end ChessHelper

